import Mathlib

/-!
# Verification of `resume_analyzer.py`

A shallow embedding of the resume-analyzer program: Python strings become
`String`/`List Char`, the `defaultdict(int)` of skill counts becomes an
association list with Python's insertion-order semantics, and the PDF
filesystem interaction is modelled by an abstract map from paths to page
texts.  `str.lower` is modelled per character (`Char.toLower`), which agrees
with Python on ASCII text; all skill names in the program are ASCII.
-/

namespace ResumeAnalyzer

/-- Python `pat in s` on character lists: `pat` occurs as a contiguous
substring of `s` (the empty pattern occurs in every string). -/
def pySubstr (s pat : List Char) : Bool :=
  match s with
  | [] => pat.isEmpty
  | _ :: rest => List.isPrefixOf pat s || pySubstr rest pat

/-- Auxiliary scanner for Python `s.count(pat)` with a non-empty pattern:
counts non-overlapping occurrences left to right; after a match the next
`pat.length - 1` characters of the tail are skipped (`skip` tracks how many
characters remain to be skipped). -/
def countAux (s pat : List Char) (skip : Nat) : Nat :=
  match s, skip with
  | [], _ => 0
  | _ :: rest, Nat.succ k => countAux rest pat k
  | c :: rest, 0 =>
    if List.isPrefixOf pat (c :: rest) then 1 + countAux rest pat (pat.length - 1)
    else countAux rest pat 0

/-- Python `s.count(pat)`: non-overlapping occurrence count; for the empty
pattern Python returns `len(s) + 1`. -/
def pyCount (s pat : List Char) : Nat :=
  if pat.isEmpty then s.length + 1 else countAux s pat 0

/-- Python `s.lower()` (ASCII case mapping). -/
def lowerStr (s : String) : String := ⟨s.data.map Char.toLower⟩

/-- Python `pat in s` on `String`. -/
def pyIn (s pat : String) : Bool := pySubstr s.data pat.data

/-- Python `s.count(pat)` on `String`. -/
def pyCountS (s pat : String) : Nat := pyCount s.data pat.data

/-- The skill counts mapping: an association list from skill name to count,
in Python dict insertion order. -/
abbrev Counts := List (String × Nat)

/-- Python dict lookup `m[k]` (as an `Option`). -/
def clookup (k : String) : Counts → Option Nat
  | [] => none
  | (k', v) :: rest => if k' = k then some v else clookup k rest

/-- Python `defaultdict(int)` update `m[k] += v`: if `k` is present its value is
increased in place (position kept), otherwise `(k, v)` is appended at the
end, matching Python dict insertion order. -/
def bump (m : Counts) (k : String) (v : Nat) : Counts :=
  match m with
  | [] => [(k, v)]
  | (k', v') :: rest => if k' = k then (k', v' + v) :: rest else (k', v') :: bump rest k v

/-- A skills database: ordered mapping from category name to skill list. -/
abbrev SkillsDb := List (String × List String)

/-- The built-in `DEFAULT_SKILLS` taxonomy. -/
def DEFAULT_SKILLS : SkillsDb :=
  [ ("Programming", ["Python", "Java", "C++", "JavaScript", "SQL", "R", "Go"]),
    ("Data", ["SQL", "NoSQL", "Spark", "Pandas", "Tableau", "PowerBI", "Excel"]),
    ("ML/AI", ["Machine Learning", "Deep Learning", "TensorFlow", "PyTorch", "NLP"]),
    ("DevOps", ["Docker", "Kubernetes", "AWS", "Azure", "CI/CD", "Terraform"]),
    ("Soft Skills", ["Leadership", "Communication", "Teamwork", "Problem Solving"]) ]

/-- The inner loop of `analyze_skills`: for each `skill` of one category,
`if skill.lower() in text: skill_counts[skill] += text.count(skill.lower())`. -/
def analyzeCat (text : String) (skills : List String) (m : Counts) : Counts :=
  match skills with
  | [] => m
  | skill :: rest =>
    analyzeCat text rest
      (if pyIn text (lowerStr skill) then bump m skill (pyCountS text (lowerStr skill)) else m)

/-- The outer loop of `analyze_skills` over the categories of the database. -/
def analyzeDb (text : String) (db : SkillsDb) (m : Counts) : Counts :=
  match db with
  | [] => m
  | (_, skills) :: rest => analyzeDb text rest (analyzeCat text skills m)

/-- Source `ResumeAnalyzer.analyze_skills`: count occurrences of each skill,
starting from an empty `defaultdict(int)`. -/
def analyze_skills (db : SkillsDb) (text : String) : Counts := analyzeDb text db []

/-- Python `', '.join(xs)`. -/
def commaJoin (xs : List String) : String := String.intercalate ", " xs

/-- The "missing category" suggestion string. -/
def missingMsg (category : String) (skills : List String) : String :=
  "⚠️ Missing " ++ category ++ " skills. Consider adding " ++ commaJoin (skills.take 3) ++ "..."

/-- The "few skills" suggestion string, from the (at most two) missing skills. -/
def fewMsg (category : String) (missing : List String) : String :=
  "ℹ️ Few " ++ category ++ " skills. Could add " ++ commaJoin missing

/-- Loop of `suggest_improvements`, carrying the `suggestions` accumulator the
Python code appends to. -/
def suggestAux (m : Counts) (db : SkillsDb) (acc : List String) : List String :=
  match db with
  | [] => acc
  | (category, skills) :: rest =>
    let found := skills.filter (fun s => (clookup s m).isSome)
    suggestAux m rest
      (acc ++
        (if found.isEmpty then [missingMsg category skills]
         else if found.length < 2 then
           [fewMsg category ((skills.filter (fun s => !found.contains s)).take 2)]
         else []))

/-- Source `ResumeAnalyzer.suggest_improvements`. -/
def suggest_improvements (db : SkillsDb) (m : Counts) : List String := suggestAux m db []

/-- The sort order of `sorted(skill_counts.items(), key=lambda x: (-x[1], x[0]))`:
descending count, then ascending skill name. -/
def reportLE (a b : String × Nat) : Prop :=
  b.2 < a.2 ∨ (a.2 = b.2 ∧ a.1 ≤ b.1)

instance : DecidableRel reportLE := fun a b => by
  unfold reportLE; infer_instance

instance : IsTotal (String × Nat) reportLE where
  total a b := by
    rcases Nat.lt_trichotomy a.2 b.2 with h | h | h
    · exact Or.inr (Or.inl h)
    · rcases le_total a.1 b.1 with h' | h'
      · exact Or.inl (Or.inr ⟨h, h'⟩)
      · exact Or.inr (Or.inr ⟨h.symm, h'⟩)
    · exact Or.inl (Or.inl h)

instance : IsTrans (String × Nat) reportLE where
  trans a b c hab hbc := by
    rcases hab with h1 | ⟨e1, n1⟩
    · rcases hbc with h2 | ⟨e2, _⟩
      · exact Or.inl (h2.trans h1)
      · exact Or.inl (e2 ▸ h1)
    · rcases hbc with h2 | ⟨e2, n2⟩
      · exact Or.inl (e1 ▸ h2)
      · exact Or.inr ⟨e1.trans e2, n1.trans n2⟩

/-- The sorted item list of the report body. -/
def sortCounts (m : Counts) : Counts := List.insertionSort reportLE m

/-- One bullet line of the report:
`f"• {skill}: {cnt} mention{'s' if cnt > 1 else ''}"`. -/
def formatLine (skill : String) (cnt : Nat) : String :=
  "• " ++ skill ++ ": " ++ toString cnt ++ " mention" ++ (if 1 < cnt then "s" else "")

/-- The `lines` list built by `generate_report` before joining. -/
def reportLines (m : Counts) (suggestions : List String) : List String :=
  ["\n=== SKILL ANALYSIS ==="] ++
    (if m.isEmpty then ["No skills detected in resume."]
     else (sortCounts m).map (fun p => formatLine p.1 p.2)) ++
    (if suggestions.isEmpty then ["\n✅ All good! Your resume covers diverse skill areas."]
     else "\n=== SUGGESTIONS ===" :: suggestions)

/-- Source `ResumeAnalyzer.generate_report`: the joined report string. -/
def generate_report (m : Counts) (suggestions : List String) : String :=
  String.intercalate "\n" (reportLines m suggestions)

/-- The filesystem seen by the program, abstracting PyMuPDF: a path either
does not exist (`none`) or holds a document given by its pages' texts. -/
abbrev FileSystem := String → Option (List String)

/-- Source `ResumeAnalyzer.extract_text`: check existence, then concatenate the page
texts and lowercase. A missing file raises `FileNotFoundError`. -/
def extract_text (fs : FileSystem) (pdf_path : String) : Except String String :=
  match fs pdf_path with
  | none => Except.error ("File not found: " ++ pdf_path)
  | some pages => Except.ok (lowerStr (String.join pages))

/-- Python `os.path.basename`: the part of the path after the last separator. -/
def basename (path : String) : String :=
  ⟨(path.data.reverse.takeWhile (fun c => c ≠ '/')).reverse⟩

/-- The `main` driver after argument parsing, with the skills database already
resolved: returns the list of printed messages and the exit status. -/
def mainRun (fs : FileSystem) (db : SkillsDb) (resume : String) : List String × Nat :=
  match extract_text fs resume with
  | Except.error e => (["\n❌ Error: " ++ e], 1)
  | Except.ok text =>
    let counts := analyze_skills db text
    let suggestions := suggest_improvements db counts
    (["\n📄 Analyzing: " ++ basename resume, generate_report counts suggestions], 0)

/-! ## Lemmas about Python substring membership and counting -/

theorem pySubstr_nil_pat (s : List Char) : pySubstr s [] = true := by
  induction s with
  | nil => rfl
  | cons c rest ih => simp [pySubstr, ih]

theorem one_le_countAux_of_pySubstr {s pat : List Char} (hpat : pat ≠ [])
    (h : pySubstr s pat = true) : 1 ≤ countAux s pat 0 := by
  induction s with
  | nil =>
    simp [pySubstr, List.isEmpty_iff] at h
    exact absurd h hpat
  | cons c rest ih =>
    simp only [pySubstr, Bool.or_eq_true] at h
    by_cases hp : List.isPrefixOf pat (c :: rest) = true
    · simp [countAux, hp]
    · rcases h with h | h
      · exact absurd h hp
      · simpa [countAux, hp] using ih h

theorem pySubstr_of_countAux_pos {s pat : List Char} {k : Nat}
    (h : 1 ≤ countAux s pat k) : pySubstr s pat = true := by
  induction s generalizing k with
  | nil => simp [countAux] at h
  | cons c rest ih =>
    match k with
    | Nat.succ k' =>
      simp only [countAux] at h
      simp [pySubstr, ih h]
    | 0 =>
      by_cases hp : List.isPrefixOf pat (c :: rest) = true
      · simp [pySubstr, hp]
      · simp only [countAux, hp, if_neg, ite_false] at h
        simp [pySubstr, ih h]

theorem one_le_pyCount_iff (s pat : List Char) :
    1 ≤ pyCount s pat ↔ pySubstr s pat = true := by
  unfold pyCount
  by_cases hpat : pat.isEmpty
  · rw [List.isEmpty_iff] at hpat
    subst hpat
    simp [pySubstr_nil_pat]
  · rw [if_neg hpat]
    rw [List.isEmpty_iff] at hpat
    exact ⟨fun h => pySubstr_of_countAux_pos h, fun h => one_le_countAux_of_pySubstr hpat h⟩

theorem pyIn_iff_one_le_pyCountS (s pat : String) :
    pyIn s pat = true ↔ 1 ≤ pyCountS s pat := by
  unfold pyIn pyCountS
  exact (one_le_pyCount_iff s.data pat.data).symm

/-! ## Lemmas about the counts dictionary -/

theorem clookup_bump_self (m : Counts) (k : String) (v : Nat) :
    clookup k (bump m k v) = some ((clookup k m).getD 0 + v) := by
  induction m with
  | nil => simp [bump, clookup]
  | cons p rest ih =>
    obtain ⟨k', v'⟩ := p
    by_cases h : k' = k
    · subst h
      simp [bump, clookup]
    · simp [bump, clookup, h, ih]

theorem clookup_bump_ne (m : Counts) {k k' : String} (h : k' ≠ k) (v : Nat) :
    clookup k' (bump m k v) = clookup k' m := by
  have h' : ¬ k = k' := fun hh => h hh.symm
  induction m with
  | nil => simp [bump, clookup, h']
  | cons p rest ih =>
    obtain ⟨k₀, v₀⟩ := p
    by_cases h₀ : k₀ = k
    · subst h₀
      simp [bump, clookup, h']
    · simp only [bump, if_neg h₀]
      by_cases h₁ : k₀ = k'
      · simp [clookup, h₁]
      · simp [clookup, h₁, ih]

theorem getD_clookup_bump (m : Counts) (k k' : String) (v : Nat) :
    (clookup k' (bump m k v)).getD 0 =
      (clookup k' m).getD 0 + (if k' = k then v else 0) := by
  by_cases h : k' = k
  · subst h
    simp [clookup_bump_self]
  · simp [clookup_bump_ne m h, h]

theorem isSome_clookup_bump (m : Counts) (k k' : String) (v : Nat) :
    (clookup k' (bump m k v)).isSome = (decide (k' = k) || (clookup k' m).isSome) := by
  by_cases h : k' = k
  · subst h
    simp [clookup_bump_self]
  · simp [clookup_bump_ne m h, h]

/-! ## Lemmas about `analyze_skills` -/

theorem getD_clookup_analyzeCat (text : String) (skills : List String) (m : Counts)
    (skill : String) :
    (clookup skill (analyzeCat text skills m)).getD 0 =
      (clookup skill m).getD 0 +
        (if pyIn text (lowerStr skill) then
          skills.count skill * pyCountS text (lowerStr skill) else 0) := by
  induction skills generalizing m with
  | nil => simp [analyzeCat, List.count_nil]
  | cons s rest ih =>
    rw [analyzeCat, ih]
    by_cases hs : s = skill
    · subst hs
      rw [List.count_cons_self]
      by_cases hc : pyIn text (lowerStr s) = true
      · simp [hc, getD_clookup_bump]
        ring
      · simp [hc]
    · have hs' : ¬ skill = s := fun h => hs h.symm
      rw [List.count_cons_of_ne hs']
      by_cases hc : pyIn text (lowerStr s) = true
      · simp [hc, getD_clookup_bump, hs']
      · simp [hc]

theorem isSome_clookup_analyzeCat (text : String) (skills : List String) (m : Counts)
    (skill : String) :
    (clookup skill (analyzeCat text skills m)).isSome =
      ((clookup skill m).isSome ||
        (pyIn text (lowerStr skill) && decide (skill ∈ skills))) := by
  induction skills generalizing m with
  | nil => simp [analyzeCat]
  | cons s rest ih =>
    rw [analyzeCat, ih]
    by_cases hs : s = skill
    · subst hs
      by_cases hc : pyIn text (lowerStr s) = true
      · simp [hc, isSome_clookup_bump]
      · simp [hc]
    · have hs' : ¬ skill = s := fun h => hs h.symm
      by_cases hc : pyIn text (lowerStr s) = true
      · simp [hc, isSome_clookup_bump, hs']
      · by_cases hmem : skill ∈ rest <;> simp [hc, hs', hmem]

theorem getD_clookup_analyzeDb (text : String) (db : SkillsDb) (m : Counts)
    (skill : String) :
    (clookup skill (analyzeDb text db m)).getD 0 =
      (clookup skill m).getD 0 +
        (if pyIn text (lowerStr skill) then
          (db.flatMap Prod.snd).count skill * pyCountS text (lowerStr skill) else 0) := by
  induction db generalizing m with
  | nil => simp [analyzeDb]
  | cons p rest ih =>
    obtain ⟨cat, skills⟩ := p
    rw [analyzeDb, ih, getD_clookup_analyzeCat]
    by_cases hc : pyIn text (lowerStr skill) = true
    · simp [hc, List.count_append, Nat.add_mul]
      ring
    · simp [hc]

theorem isSome_clookup_analyzeDb (text : String) (db : SkillsDb) (m : Counts)
    (skill : String) :
    (clookup skill (analyzeDb text db m)).isSome =
      ((clookup skill m).isSome ||
        (pyIn text (lowerStr skill) && decide (skill ∈ db.flatMap Prod.snd))) := by
  induction db generalizing m with
  | nil => simp [analyzeDb]
  | cons p rest ih =>
    obtain ⟨cat, skills⟩ := p
    rw [analyzeDb, ih, isSome_clookup_analyzeCat]
    by_cases hc : pyIn text (lowerStr skill) = true
    · by_cases h1 : skill ∈ skills <;> by_cases h2 : skill ∈ rest.flatMap Prod.snd <;>
        simp [hc, h1, h2, Bool.or_assoc]
    · simp [hc]

/-- Master characterisation of `analyze_skills` as a mapping: a skill is a key
iff its lower-cased name occurs in the text and it is listed somewhere in the
database, and its count is (number of listings) × (substring count). -/
theorem clookup_analyze_skills (db : SkillsDb) (text : String) (skill : String) :
    clookup skill (analyze_skills db text) =
      if pyIn text (lowerStr skill) = true ∧ skill ∈ db.flatMap Prod.snd then
        some ((db.flatMap Prod.snd).count skill * pyCountS text (lowerStr skill))
      else none := by
  have hsome := isSome_clookup_analyzeDb text db [] skill
  have hgetD := getD_clookup_analyzeDb text db [] skill
  simp only [clookup, Option.isSome_none, Bool.false_or, Option.getD_none, Nat.zero_add]
    at hsome hgetD
  unfold analyze_skills
  by_cases hc : pyIn text (lowerStr skill) = true ∧ skill ∈ db.flatMap Prod.snd
  · rw [if_pos hc]
    have hs : (clookup skill (analyzeDb text db [])).isSome = true := by
      rw [hsome]; simp [hc.1, hc.2]
    obtain ⟨v, hv⟩ := Option.isSome_iff_exists.mp hs
    rw [hv]
    rw [hv] at hgetD
    simp only [Option.getD_some] at hgetD
    rw [hgetD, if_pos hc.1]
  · rw [if_neg hc]
    have hs : (clookup skill (analyzeDb text db [])).isSome = false := by
      rw [hsome]
      rcases not_and_or.mp hc with h | h
      · simp [Bool.eq_false_iff.mpr h]
      · simp [h]
    exact Option.not_isSome_iff_eq_none.mp (by simp [hs])

/-- Every pair of a `bump` of `m` is a pair of `m`, the bumped key with an
increased value, or the freshly appended pair. -/
theorem mem_bump {m : Counts} {k : String} {v : Nat} {p : String × Nat}
    (h : p ∈ bump m k v) :
    p ∈ m ∨ p.1 = k ∧ ((clookup k m).getD 0 + v = p.2 ∨ v = p.2) := by
  induction m with
  | nil =>
    simp only [bump, List.mem_singleton] at h
    subst h
    exact Or.inr ⟨rfl, Or.inr rfl⟩
  | cons q rest ih =>
    obtain ⟨k₀, v₀⟩ := q
    by_cases h₀ : k₀ = k
    · subst h₀
      rw [bump, if_pos rfl, List.mem_cons] at h
      rcases h with h1 | h1
      · subst h1
        simp [clookup]
      · exact Or.inl (List.mem_cons_of_mem _ h1)
    · rw [bump, if_neg h₀, List.mem_cons] at h
      rcases h with h1 | h1
      · exact Or.inl (by simp [h1])
      · rcases ih h1 with h' | ⟨h2, h3⟩
        · exact Or.inl (List.mem_cons_of_mem _ h')
        · refine Or.inr ⟨h2, ?_⟩
          simpa [clookup, h₀] using h3

/-- All counts stored by `analyze_skills` are positive: the predicate is an
invariant of the loops, since each `+=` is guarded by the `in` test. -/
theorem allPos_analyzeCat (text : String) (skills : List String) (m : Counts)
    (hm : ∀ p ∈ m, 1 ≤ p.2) : ∀ p ∈ analyzeCat text skills m, 1 ≤ p.2 := by
  induction skills generalizing m with
  | nil => exact hm
  | cons s rest ih =>
    rw [analyzeCat]
    refine ih _ ?_
    by_cases hc : pyIn text (lowerStr s) = true
    · rw [if_pos hc]
      intro p hp
      rcases mem_bump hp with h | ⟨_, h⟩
      · exact hm p h
      · have hcnt : 1 ≤ pyCountS text (lowerStr s) :=
          (pyIn_iff_one_le_pyCountS text (lowerStr s)).mp hc

        rcases h with h | h <;> omega
    · rw [if_neg hc]
      exact hm

theorem allPos_analyzeDb (text : String) (db : SkillsDb) (m : Counts)
    (hm : ∀ p ∈ m, 1 ≤ p.2) : ∀ p ∈ analyzeDb text db m, 1 ≤ p.2 := by
  induction db generalizing m with
  | nil => exact hm
  | cons q rest ih =>
    obtain ⟨cat, skills⟩ := q
    exact ih _ (allPos_analyzeCat text skills m hm)

theorem allPos_analyze_skills (db : SkillsDb) (text : String) :
    ∀ p ∈ analyze_skills db text, 1 ≤ p.2 :=
  allPos_analyzeDb text db [] (by simp)

/-- The keys of the mapping are pairwise distinct (it is a Python dict). -/
abbrev KeysNodup (m : Counts) : Prop := m.Pairwise (fun a b => a.1 ≠ b.1)

theorem keysNodup_bump {m : Counts} (hm : KeysNodup m) (k : String) (v : Nat) :
    KeysNodup (bump m k v) := by
  induction m with
  | nil => simp [bump, KeysNodup]
  | cons q rest ih =>
    obtain ⟨k₀, v₀⟩ := q
    rcases (List.pairwise_cons.mp hm) with ⟨hhead, htail⟩
    by_cases h₀ : k₀ = k
    · subst h₀
      simp only [KeysNodup, bump, if_pos rfl]
      exact List.pairwise_cons.mpr ⟨fun p hp => hhead p hp, htail⟩
    · simp only [KeysNodup, bump, if_neg h₀]
      refine List.pairwise_cons.mpr ⟨?_, ih htail⟩
      intro p hp
      rcases mem_bump hp with h | ⟨h1, _⟩
      · exact hhead p h
      · simpa [h1] using h₀

theorem keysNodup_analyzeCat (text : String) (skills : List String) (m : Counts)
    (hm : KeysNodup m) : KeysNodup (analyzeCat text skills m) := by
  induction skills generalizing m with
  | nil => exact hm
  | cons s rest ih =>
    rw [analyzeCat]
    refine ih _ ?_
    by_cases hc : pyIn text (lowerStr s) = true
    · rw [if_pos hc]
      exact keysNodup_bump hm s _
    · rw [if_neg hc]
      exact hm

theorem keysNodup_analyzeDb (text : String) (db : SkillsDb) (m : Counts)
    (hm : KeysNodup m) : KeysNodup (analyzeDb text db m) := by
  induction db generalizing m with
  | nil => exact hm
  | cons q rest ih =>
    obtain ⟨cat, skills⟩ := q
    exact ih _ (keysNodup_analyzeCat text skills m hm)

theorem keysNodup_analyze_skills (db : SkillsDb) (text : String) :
    KeysNodup (analyze_skills db text) :=
  keysNodup_analyzeDb text db [] (by simp [KeysNodup])

/-- A skill listed at most once per category is listed in total as many times
as there are categories containing it. -/
theorem count_flatMap_eq_filter_length (db : SkillsDb) (skill : String)
    (hdup : ∀ p ∈ db, p.2.count skill ≤ 1) :
    (db.flatMap Prod.snd).count skill =
      (db.filter (fun p => p.2.contains skill)).length := by
  induction db with
  | nil => simp
  | cons q rest ih =>
    obtain ⟨cat, skills⟩ := q
    have h1 : skills.count skill ≤ 1 := hdup _ (List.mem_cons_self _ _)
    have h2 : ∀ p ∈ rest, p.2.count skill ≤ 1 :=
      fun p hp => hdup p (List.mem_cons_of_mem _ hp)
    by_cases hmem : skill ∈ skills
    · have hpos : 0 < skills.count skill := List.count_pos_iff.mpr hmem
      have : skills.count skill = 1 := by omega
      simp [List.count_append, this, hmem, ih h2]
      omega
    · have : skills.count skill = 0 := List.count_eq_zero.mpr hmem
      simp [List.count_append, this, hmem, ih h2]

/-! ## Lemmas about `suggest_improvements` -/

theorem suggestAux_acc (m : Counts) (db : SkillsDb) (acc : List String) :
    suggestAux m db acc = acc ++ suggestAux m db [] := by
  induction db generalizing acc with
  | nil => simp [suggestAux]
  | cons q rest ih =>
    obtain ⟨cat, skills⟩ := q
    rw [suggestAux, suggestAux, ih]
    conv_rhs => rw [ih]
    simp [List.append_assoc]

/-- Per-category suggestion behaviour, written as the specification states it:
one "missing" message (category and its first three skills) when no skill of
the category is a key of the mapping, one "few skills" message (up to two
skills of the category that are not keys) when fewer than two are keys,
nothing otherwise. -/
def specCatSuggestion (m : Counts) (p : String × List String) : List String :=
  let keys := p.2.filter (fun s => (clookup s m).isSome)
  if keys = [] then [missingMsg p.1 p.2]
  else if keys.length < 2 then
    [fewMsg p.1 ((p.2.filter (fun s => (clookup s m).isNone)).take 2)]
  else []

theorem suggest_improvements_eq_flatMap (db : SkillsDb) (m : Counts) :
    suggest_improvements db m = db.flatMap (specCatSuggestion m) := by
  unfold suggest_improvements
  induction db with
  | nil => simp [suggestAux]
  | cons q rest ih =>
    obtain ⟨cat, skills⟩ := q
    rw [suggestAux, suggestAux_acc, List.nil_append, ih, List.flatMap_cons]
    congr 1
    have hnotin : skills.filter
        (fun s => !(skills.filter (fun s => (clookup s m).isSome)).contains s) =
        skills.filter (fun s => (clookup s m).isNone) := by
      refine List.filter_congr ?_
      intro s hs
      by_cases h : (clookup s m).isSome = true
      · have hmemf : s ∈ skills.filter (fun t => (clookup t m).isSome) :=
          List.mem_filter.mpr ⟨hs, h⟩
        have hcont : (skills.filter (fun t => (clookup t m).isSome)).contains s = true :=
          List.contains_iff_exists_mem_beq.mpr ⟨s, hmemf, by simp⟩
        obtain ⟨v, hv⟩ := Option.isSome_iff_exists.mp h
        simp [hcont, hv]
        exact hs
      · have hnone : clookup s m = none := Option.not_isSome_iff_eq_none.mp h
        have hcont : (skills.filter (fun t => (clookup t m).isSome)).contains s = false := by
          rw [Bool.eq_false_iff]
          intro hc
          obtain ⟨x, hx, hbeq⟩ := List.contains_iff_exists_mem_beq.mp hc
          have hsx : s = x := by simpa using hbeq
          subst hsx
          exact h (List.mem_filter.mp hx).2
        simp [hcont, hnone]
    simp only [specCatSuggestion, List.isEmpty_iff, hnotin]

/-! ## Lemmas about the report -/

/-- The sorted items of the report are strictly ordered: descending count,
ties broken by strictly ascending name (keys are distinct). -/
theorem pairwise_sortCounts (m : Counts) (hm : KeysNodup m) :
    (sortCounts m).Pairwise (fun a b => b.2 < a.2 ∨ (a.2 = b.2 ∧ a.1 < b.1)) := by
  have hsorted : (sortCounts m).Pairwise reportLE :=
    List.sorted_insertionSort reportLE m
  have hperm : List.Perm (sortCounts m) m := List.perm_insertionSort reportLE m
  have hne : (sortCounts m).Pairwise (fun a b => a.1 ≠ b.1) :=
    (hperm.pairwise_iff fun h => h.symm).mpr hm
  refine List.Pairwise.imp₂ ?_ hsorted hne
  intro a b hr hab
  rcases hr with h | ⟨he, hle⟩
  · exact Or.inl h
  · exact Or.inr ⟨he, lt_of_le_of_ne hle hab⟩

/-- With count at least 1—as all stored counts are—the `cnt > 1` test of the
source renders the singular exactly for count 1. -/
theorem formatLine_pluralization (skill : String) (cnt : Nat) (h : 1 ≤ cnt) :
    formatLine skill cnt =
      "• " ++ skill ++ ": " ++ toString cnt ++ " mention" ++
        (if cnt = 1 then "" else "s") := by
  unfold formatLine
  congr 1
  by_cases h1 : cnt = 1
  · simp [h1]
  · have : 1 < cnt := by omega
    simp [h1, this]

/-! ## Lemmas about the empty text -/

theorem pyIn_empty_text {s : String} (hs : s ≠ "") :
    pyIn "" (lowerStr s) = false := by
  have hdata : s.data ≠ [] := by
    intro h
    apply hs
    cases s
    simp at h
    simp [h]
  unfold pyIn lowerStr pySubstr
  cases hd : s.data with
  | nil => exact absurd hd hdata
  | cons c cs => simp [hd]

theorem analyzeCat_empty_text (skills : List String) (m : Counts)
    (hs : ∀ s ∈ skills, s ≠ "") : analyzeCat "" skills m = m := by
  induction skills with
  | nil => rfl
  | cons s rest ih =>
    rw [analyzeCat, if_neg]
    · exact ih fun t ht => hs t (List.mem_cons_of_mem _ ht)
    · simp [pyIn_empty_text (hs s (List.mem_cons_self _ _))]

theorem analyzeDb_empty_text (db : SkillsDb) (m : Counts)
    (hs : ∀ p ∈ db, ∀ s ∈ p.2, s ≠ "") : analyzeDb "" db m = m := by
  induction db generalizing m with
  | nil => rfl
  | cons q rest ih =>
    obtain ⟨cat, skills⟩ := q
    rw [analyzeDb, analyzeCat_empty_text skills m (hs _ (List.mem_cons_self _ _))]
    exact ih m fun p hp => hs p (List.mem_cons_of_mem _ hp)

theorem analyze_skills_empty_text (db : SkillsDb)
    (hs : ∀ p ∈ db, ∀ s ∈ p.2, s ≠ "") : analyze_skills db "" = [] :=
  analyzeDb_empty_text db [] hs

/-! ## The claims -/

/-- C1 (counterexample): with "SQL" listed in the two categories
"Programming" and "Data" and the text "sql", the mapping stores count 2 for
"SQL", while the substring count computed on the last category containing it
is 1 — so the count is not a last-write-wins assignment. -/
theorem claim_C1_counterexample :
    clookup "SQL" (analyze_skills [("Programming", ["SQL"]), ("Data", ["SQL"])] "sql") =
      some 2 ∧
    pyCountS "sql" (lowerStr "SQL") = 1 := by
  decide

/-- C1 (amended): if a skill name occurring in the text appears in the
taxonomy, the Skill Counts mapping has one entry for that name (keys are
pairwise distinct) whose value is the sum over all of its taxonomy listings
of the substring count — accumulation with `+=`, not last-write-wins. -/
theorem claim_C1 (db : SkillsDb) (text skill : String)
    (hocc : 1 ≤ pyCountS text (lowerStr skill))
    (hmem : skill ∈ db.flatMap Prod.snd) :
    KeysNodup (analyze_skills db text) ∧
    clookup skill (analyze_skills db text) =
      some ((db.flatMap Prod.snd).count skill * pyCountS text (lowerStr skill)) := by
  refine ⟨keysNodup_analyze_skills db text, ?_⟩
  rw [clookup_analyze_skills,
    if_pos ⟨(pyIn_iff_one_le_pyCountS text (lowerStr skill)).mpr hocc, hmem⟩]

theorem claim_C1_witness :
    1 ≤ pyCountS "sql" (lowerStr "SQL") ∧
    "SQL" ∈ ([("Programming", ["SQL"]), ("Data", ["SQL"])] : SkillsDb).flatMap Prod.snd ∧
    (KeysNodup (analyze_skills [("Programming", ["SQL"]), ("Data", ["SQL"])] "sql") ∧
      clookup "SQL" (analyze_skills [("Programming", ["SQL"]), ("Data", ["SQL"])] "sql") =
        some ((([("Programming", ["SQL"]), ("Data", ["SQL"])] : SkillsDb).flatMap
          Prod.snd).count "SQL" * pyCountS "sql" (lowerStr "SQL"))) :=
  ⟨by decide, by decide,
    claim_C1 [("Programming", ["SQL"]), ("Data", ["SQL"])] "sql" "SQL"
      (by decide) (by decide)⟩

/-- C2: on the text "i used python and python for data analysis with sql"
with the single category "Programming" = ["Python", "SQL"], the counter
returns exactly Python ↦ 2, SQL ↦ 1, and the report lists the Python line
before the SQL line. -/
theorem claim_C2 :
    analyze_skills [("Programming", ["Python", "SQL"])]
      "i used python and python for data analysis with sql" =
        [("Python", 2), ("SQL", 1)] ∧
    reportLines
      (analyze_skills [("Programming", ["Python", "SQL"])]
        "i used python and python for data analysis with sql")
      (suggest_improvements [("Programming", ["Python", "SQL"])]
        (analyze_skills [("Programming", ["Python", "SQL"])]
          "i used python and python for data analysis with sql")) =
      ["\n=== SKILL ANALYSIS ===", "• Python: 2 mentions", "• SQL: 1 mention",
        "\n✅ All good! Your resume covers diverse skill areas."] := by
  constructor
  · decide
  · decide

/-- C3: every key of the Skill Counts mapping has count at least 1, and a
skill whose (lower-cased) occurrence count in the text is 0 is not a key. -/
theorem claim_C3 (db : SkillsDb) (text : String) :
    (∀ skill cnt, (skill, cnt) ∈ analyze_skills db text → 1 ≤ cnt) ∧
    (∀ skill, pyCountS text (lowerStr skill) = 0 →
      clookup skill (analyze_skills db text) = none) := by
  constructor
  · intro skill cnt h
    exact allPos_analyze_skills db text (skill, cnt) h
  · intro skill h
    rw [clookup_analyze_skills, if_neg]
    rintro ⟨hin, -⟩
    have := (pyIn_iff_one_le_pyCountS text (lowerStr skill)).mp hin
    omega

theorem claim_C3_witness :
    1 ≤ 1 ∧ clookup "Java" (analyze_skills DEFAULT_SKILLS "python") = none :=
  ⟨(claim_C3 DEFAULT_SKILLS "python").1 "Python" 1 (by decide),
   (claim_C3 DEFAULT_SKILLS "python").2 "Java" (by decide)⟩

/-- C4: the report body lists the skills of a non-empty mapping in an order
where a line preceding another has a strictly greater count, or an equal
count and a lexicographically smaller skill name. -/
theorem claim_C4 (m : Counts) (hm : KeysNodup m) (hne : m ≠ []) :
    (sortCounts m).Pairwise fun a b => b.2 < a.2 ∨ (a.2 = b.2 ∧ a.1 < b.1) :=
  pairwise_sortCounts m hm

theorem claim_C4_witness :
    KeysNodup [("Python", 2), ("SQL", 1)] ∧
    ([("Python", 2), ("SQL", 1)] : Counts) ≠ [] ∧
    (sortCounts [("Python", 2), ("SQL", 1)]).Pairwise
      (fun a b => b.2 < a.2 ∨ (a.2 = b.2 ∧ a.1 < b.1)) :=
  ⟨by decide, by decide,
    claim_C4 [("Python", 2), ("SQL", 1)] (by decide) (by decide)⟩

/-- C5: a skill listed in the report with count exactly 1 is rendered with
the singular "mention", any other listed skill with the plural "mentions"
(all listed counts are at least 1). -/
theorem claim_C5 (db : SkillsDb) (text skill : String) (cnt : Nat)
    (h : (skill, cnt) ∈ analyze_skills db text) :
    formatLine skill cnt =
      "• " ++ skill ++ ": " ++ toString cnt ++ " mention" ++
        (if cnt = 1 then "" else "s") :=
  formatLine_pluralization skill cnt (allPos_analyze_skills db text (skill, cnt) h)

theorem claim_C5_witness :
    ("SQL", 1) ∈ analyze_skills [("Programming", ["Python", "SQL"])] "python and sql" ∧
    formatLine "SQL" 1 =
      "• " ++ "SQL" ++ ": " ++ toString 1 ++ " mention" ++
        (if 1 = 1 then "" else "s") :=
  ⟨by decide,
    claim_C5 [("Programming", ["Python", "SQL"])] "python and sql" "SQL" 1 (by decide)⟩

/-- C6: the suggestions are exactly, category by category in taxonomy order:
one "missing" message (category name and its first three skills) when no
skill of the category is a key, one "few skills" message (up to two skills
of the category that are not keys) when fewer than two are, and nothing
otherwise. -/
theorem claim_C6 (db : SkillsDb) (m : Counts) :
    suggest_improvements db m = db.flatMap (specCatSuggestion m) :=
  suggest_improvements_eq_flatMap db m

/-- C7: a path absent from the filesystem makes `extract_text` fail with the
not-found error, and the driver then prints only the error message and exits
with status 1 — no report. -/
theorem claim_C7 (fs : FileSystem) (db : SkillsDb) (path : String)
    (h : fs path = none) :
    extract_text fs path = Except.error ("File not found: " ++ path) ∧
    mainRun fs db path = (["\n❌ Error: " ++ ("File not found: " ++ path)], 1) := by
  constructor
  · unfold extract_text
    rw [h]
  · unfold mainRun extract_text
    rw [h]

theorem claim_C7_witness :
    (fun _ : String => (none : Option (List String))) "resume.pdf" = none ∧
    (extract_text (fun _ => none) "resume.pdf" =
      Except.error ("File not found: " ++ "resume.pdf") ∧
     mainRun (fun _ => none) DEFAULT_SKILLS "resume.pdf" =
      (["\n❌ Error: " ++ ("File not found: " ++ "resume.pdf")], 1)) :=
  ⟨rfl, claim_C7 (fun _ => none) DEFAULT_SKILLS "resume.pdf" rfl⟩

/-- C8: on the empty text, with a non-empty taxonomy whose skill names are
all non-empty, the mapping is empty, the report contains the
"No skills detected" line, and every category emits one "missing" message. -/
theorem claim_C8 (db : SkillsDb) (hne : db ≠ [])
    (hs : ∀ p ∈ db, ∀ s ∈ p.2, s ≠ "") :
    analyze_skills db "" = [] ∧
    "No skills detected in resume." ∈
      reportLines (analyze_skills db "") (suggest_improvements db (analyze_skills db "")) ∧
    suggest_improvements db (analyze_skills db "") =
      db.map fun p => missingMsg p.1 p.2 := by
  have hempty := analyze_skills_empty_text db hs
  refine ⟨hempty, ?_, ?_⟩
  · rw [hempty]
    simp [reportLines]
  · rw [hempty, suggest_improvements_eq_flatMap]
    have hcat : ∀ p : String × List String, specCatSuggestion [] p = [missingMsg p.1 p.2] := by
      intro p
      simp [specCatSuggestion, clookup]
    clear hne hs hempty
    induction db with
    | nil => rfl
    | cons q rest ih =>
      rw [List.flatMap_cons, hcat, List.map_cons, List.singleton_append, ih]

theorem claim_C8_witness :
    DEFAULT_SKILLS ≠ [] ∧
    (∀ p ∈ DEFAULT_SKILLS, ∀ s ∈ p.2, s ≠ "") ∧
    (analyze_skills DEFAULT_SKILLS "" = [] ∧
     "No skills detected in resume." ∈
       reportLines (analyze_skills DEFAULT_SKILLS "")
         (suggest_improvements DEFAULT_SKILLS (analyze_skills DEFAULT_SKILLS "")) ∧
     suggest_improvements DEFAULT_SKILLS (analyze_skills DEFAULT_SKILLS "") =
       DEFAULT_SKILLS.map fun p => missingMsg p.1 p.2) :=
  ⟨by decide, by decide, claim_C8 DEFAULT_SKILLS (by decide) (by decide)⟩

/-- C9: a skill occurring in the text and listed (at most once per category)
in k categories gets count k times its substring count; in particular the
default taxonomy lists "SQL" twice, so the text "sql" gives it count 2. -/
theorem claim_C9 :
    (∀ (db : SkillsDb) (text skill : String),
      1 ≤ pyCountS text (lowerStr skill) →
      skill ∈ db.flatMap Prod.snd →
      (∀ p ∈ db, p.2.count skill ≤ 1) →
      clookup skill (analyze_skills db text) =
        some ((db.filter fun p => p.2.contains skill).length *
          pyCountS text (lowerStr skill))) ∧
    clookup "SQL" (analyze_skills DEFAULT_SKILLS "sql") = some 2 := by
  constructor
  · intro db text skill hocc hmem hdup
    rw [clookup_analyze_skills,
      if_pos ⟨(pyIn_iff_one_le_pyCountS text (lowerStr skill)).mpr hocc, hmem⟩,
      count_flatMap_eq_filter_length db skill hdup]
  · decide

theorem claim_C9_witness :
    1 ≤ pyCountS "sql" (lowerStr "SQL") ∧
    "SQL" ∈ DEFAULT_SKILLS.flatMap Prod.snd ∧
    (∀ p ∈ DEFAULT_SKILLS, p.2.count "SQL" ≤ 1) ∧
    clookup "SQL" (analyze_skills DEFAULT_SKILLS "sql") =
      some ((DEFAULT_SKILLS.filter fun p => p.2.contains "SQL").length *
        pyCountS "sql" (lowerStr "SQL")) :=
  ⟨by decide, by decide, by decide,
    claim_C9.1 DEFAULT_SKILLS "sql" "SQL" (by decide) (by decide) (by decide)⟩

/-- C10: an empty-string skill listed in the taxonomy is always a key — the
empty string is a substring of every text — with count `len(text) + 1` per
listing; in particular the mapping for the empty text is then non-empty. -/
theorem claim_C10 :
    (∀ (db : SkillsDb) (text : String),
      "" ∈ db.flatMap Prod.snd →
      clookup "" (analyze_skills db text) =
        some ((db.flatMap Prod.snd).count "" * (text.length + 1))) ∧
    analyze_skills [("Categories", [""])] "" = [("", 1)] := by
  constructor
  · intro db text hmem
    have hin : pyIn text (lowerStr "") = true := pySubstr_nil_pat text.data
    have hcnt : pyCountS text (lowerStr "") = text.length + 1 := rfl
    rw [clookup_analyze_skills, if_pos ⟨hin, hmem⟩, hcnt]
  · decide

theorem claim_C10_witness :
    "" ∈ ([("Categories", [""])] : SkillsDb).flatMap Prod.snd ∧
    clookup "" (analyze_skills [("Categories", [""])] "hi") =
      some ((([("Categories", [""])] : SkillsDb).flatMap Prod.snd).count "" *
        ("hi".length + 1)) :=
  ⟨by decide, claim_C10.1 [("Categories", [""])] "hi" (by decide)⟩

end ResumeAnalyzer
